import Mathlib

/-!
Verification of the execution-and-repair engine of `rust-openclaw`.

The Rust sources (`src/bot.rs`, `src/executor.rs`, `src/config.rs`) are
shallowly embedded below.  Rust strings are modelled as `List Char`; Rust
byte indices coincide with character indices for the ASCII patterns these
functions search for, and the byte-level behaviour of the truncation
helpers is modelled separately through UTF-8 byte widths.  External
effects (spawning a child process, the advisory LLM round-trip) are
modelled as oracles indexed by a global call counter, so that every
invocation may behave differently, as in reality.
-/

namespace OpenClaw

/-- Rust `&str` modelled as a list of unicode scalar values. -/
abbrev Str := List Char

/-- Whitespace test used by Rust `char::is_whitespace` restricted to the
ASCII whitespace characters (space, tab, newline, carriage return,
vertical tab, form feed); the inputs relevant to the claims contain no
exotic unicode whitespace. -/
def isWS (c : Char) : Bool :=
  c == ' ' || c == '\t' || c == '\n' || c == '\r' || c == Char.ofNat 11 || c == Char.ofNat 12

/-- Rust `str::trim_start`. -/
def trimStart (s : Str) : Str := s.dropWhile isWS

/-- Rust `str::trim_end`. -/
def trimEnd (s : Str) : Str := (s.reverse.dropWhile isWS).reverse

/-- Rust `str::trim`. -/
def trim (s : Str) : Str := trimEnd (trimStart s)

/-- Rust `str::starts_with` (first argument is the pattern). -/
def startsWith : Str → Str → Bool
  | [], _ => true
  | _ :: _, [] => false
  | p :: ps, c :: cs => p == c && startsWith ps cs

/-- Rust `str::ends_with` (first argument is the pattern). -/
def endsWith (pat s : Str) : Bool := startsWith pat.reverse s.reverse

/-- Rust `str::find(pattern)`: index of the first occurrence of `pat`. -/
def findSub (pat : Str) : Str → Option Nat
  | [] => if startsWith pat [] then some 0 else none
  | c :: rest =>
    if startsWith pat (c :: rest) then some 0
    else (findSub pat rest).map (· + 1)

/-- Rust `str::contains(pattern)`. -/
def containsSub (pat s : Str) : Bool := (findSub pat s).isSome

/-- Rust `str::find(char)`. -/
def findChar (c : Char) : Str → Option Nat
  | [] => none
  | a :: rest => if a == c then some 0 else (findChar c rest).map (· + 1)

/-- Rust `str::rfind(char)`: index of the last occurrence. -/
def findLastChar (c : Char) : Str → Option Nat
  | [] => none
  | a :: rest =>
    match findLastChar c rest with
    | some i => some (i + 1)
    | none => if a == c then some 0 else none

/-- Split at every occurrence of `c`, keeping empty pieces (`n` separators
produce `n + 1` pieces). -/
def splitOnChar (c : Char) : Str → List Str
  | [] => [[]]
  | a :: rest =>
    if a == c then [] :: splitOnChar c rest
    else
      match splitOnChar c rest with
      | [] => [[a]]
      | h :: t => (a :: h) :: t

/-- Strip one trailing carriage return, as Rust `str::lines` does. -/
def rstripCr (l : Str) : Str :=
  match l.reverse with
  | r :: rest => if r == '\r' then rest.reverse else l
  | [] => l

/-- Rust `str::lines`: split on newline, a final line ending is optional
(no trailing empty line), each line stripped of a trailing `\r`. -/
def lines (s : Str) : List Str :=
  let parts := splitOnChar '\n' s
  let parts :=
    match parts.reverse with
    | last :: front => if last = [] then front.reverse else parts
    | [] => parts
  parts.map rstripCr

/-- Helper for `splitWhitespace`: accumulates the current word reversed. -/
def splitWSAux : Str → Str → List Str
  | [], cur => if cur = [] then [] else [cur.reverse]
  | c :: rest, cur =>
    if isWS c then
      if cur = [] then splitWSAux rest [] else cur.reverse :: splitWSAux rest []
    else splitWSAux rest (c :: cur)

/-- Rust `str::split_whitespace`: maximal runs of non-whitespace. -/
def splitWhitespace (s : Str) : List Str := splitWSAux s []

/-- Rust `str::to_lowercase` restricted to ASCII (the extensions and path
prefixes compared in the source are ASCII). -/
def toLowerStr (s : Str) : Str := s.map Char.toLower

/-- A double or single quote character. -/
def isQuoteChar (c : Char) : Bool := c == '"' || c == Char.ofNat 39

/-- Rust `str::trim_matches(|c| c == '"' or single quote)`: removes ALL
leading and trailing quote characters. -/
def trimQuotes (w : Str) : Str :=
  ((w.dropWhile isQuoteChar).reverse.dropWhile isQuoteChar).reverse

/-- Byte-lexicographic order on Rust `String`s; UTF-8 byte order agrees
with scalar-value order, so this compares scalar values. -/
def leStr : Str → Str → Bool
  | [], _ => true
  | _ :: _, [] => false
  | a :: as, b :: bs =>
    if a.toNat < b.toNat then true
    else if b.toNat < a.toNat then false
    else leStr as bs

/-- Insert into a `leStr`-sorted list. -/
def insertSorted (a : Str) : List Str → List Str
  | [] => [a]
  | b :: bs => if leStr a b then a :: b :: bs else b :: insertSorted a bs

/-- Model of Rust `Vec::sort` on strings (any comparison sort produces the
same list, so insertion sort is a faithful model). -/
def sortStr : List Str → List Str
  | [] => []
  | a :: as => insertSorted a (sortStr as)

/-- Helper for `dedupAdj`: drop elements while they repeat `prev`. -/
def dedupAdjAfter (prev : Str) : List Str → List Str
  | [] => []
  | b :: rest => if b = prev then dedupAdjAfter prev rest else b :: dedupAdjAfter b rest

/-- Rust `Vec::dedup`: remove consecutive repeated elements. -/
def dedupAdj : List Str → List Str
  | [] => []
  | a :: rest => a :: dedupAdjAfter a rest

/-! ### UTF-8 byte model, for the byte-indexed truncation helpers -/

/-- Number of bytes of the UTF-8 encoding of a scalar value. -/
def utf8Len (c : Char) : Nat :=
  if c.toNat < 0x80 then 1
  else if c.toNat < 0x800 then 2
  else if c.toNat < 0x10000 then 3
  else 4

/-- Rust `str::len`: length in bytes. -/
def byteLen : Str → Nat
  | [] => 0
  | c :: cs => utf8Len c + byteLen cs

/-- Rust `str::is_char_boundary`. -/
def isCharBoundary : Str → Nat → Bool
  | _, 0 => true
  | [], _ + 1 => false
  | c :: cs, n + 1 =>
    if n + 1 < utf8Len c then false else isCharBoundary cs (n + 1 - utf8Len c)

/-- Rust byte slice `&s[..n]`; `none` models the panic on a byte index
that is not a character boundary (or out of range). -/
def takeBytes : Str → Nat → Option Str
  | _, 0 => some []
  | [], _ + 1 => none
  | c :: cs, n + 1 =>
    if utf8Len c ≤ n + 1 then (takeBytes cs (n + 1 - utf8Len c)).map (c :: ·)
    else none

/-- The loop of `bot.rs::truncate`: decrement `end` until it is a
character boundary. -/
def boundaryDown (s : Str) : Nat → Nat
  | 0 => 0
  | e + 1 => if isCharBoundary s (e + 1) then e + 1 else boundaryDown s e

/-- The suffix appended by both truncation helpers. -/
def truncSuffix : Str := "...(截断)".data

/-- `bot.rs::truncate` (lines 42-51): byte truncation that first walks
back to a character boundary; `none` would model a panic. -/
def truncate (s : Str) (max : Nat) : Option Str :=
  if byteLen s ≤ max then some s
  else (takeBytes s (boundaryDown s max)).map (· ++ truncSuffix)

/-- `executor.rs::truncate_str` (lines 123-129): byte truncation with NO
boundary adjustment; `none` models the slicing panic. -/
def truncate_str (s : Str) (max : Nat) : Option Str :=
  if byteLen s ≤ max then some s
  else (takeBytes s max).map (· ++ truncSuffix)

/-! ### Data model (`executor.rs`, `config.rs`) -/

/-- `executor.rs::TaskCommand` — an Action of the Plan. -/
structure TaskCommand where
  command : Str
  description : Str
deriving DecidableEq

/-- `executor.rs::CommandResult` — an ExecutionResult. -/
structure CommandResult where
  command : Str
  success : Bool
  exit_code : Option Int
  stdout : Str
  stderr : Str
deriving DecidableEq

/-- `config.rs::ExecutorConfig`. -/
structure ExecutorConfig where
  working_dir : Option Str
  timeout_secs : Nat
  echo_result : Bool
  activate_venv : Option Str
  max_fix_retries : Nat
deriving DecidableEq

/-- Possible fates of the one child process spawned by
`Executor::run_command`: it ran to completion, the timeout fired, or the
spawn itself failed. -/
inductive ProcOutcome where
  | completed (success : Bool) (exit_code : Option Int) (stdout stderr : Str)
  | timedOut
  | spawnFailed (msg : Str)
deriving DecidableEq

/-- The string handed to `sh -c` by `Executor::run_command`
(executor.rs lines 50-54): it is the command verbatim — the
`activate_venv` configuration field is not consulted anywhere. -/
def shell_command_text (_cfg : ExecutorConfig) (cmd : Str) : Str := cmd

/-- Modelled from the spec: the doc comment on
`ExecutorConfig::activate_venv` (config.rs lines 54-56) and spec §4.1
state that, when an activation venv is configured, every command is
actually run as `source <path>/bin/activate && <original command>`. -/
def shell_command_text_spec (cfg : ExecutorConfig) (cmd : Str) : Str :=
  match cfg.activate_venv with
  | some v => "source ".data ++ v ++ "/bin/activate && ".data ++ cmd
  | none => cmd

/-- Display text of the anyhow context attached on timeout
(executor.rs line 57). -/
def timeoutErrText (cfg : ExecutorConfig) (cmd : Str) : Str :=
  "命令超时 (".data ++ (Nat.repr cfg.timeout_secs).data ++ " 秒): ".data ++ cmd

/-- Display text of the anyhow context attached on spawn failure
(executor.rs line 58). -/
def runFailErrText (cmd : Str) : Str := "命令执行失败: ".data ++ cmd

/-- `Executor::run_command` (executor.rs lines 34-85) given the fate of
its child process: a completed process becomes an `ok` CommandResult
recording the command, success flag, exit code and lossily decoded
output; timeout and spawn failure are propagated as `anyhow` errors
whose display text is the attached context. -/
def run_command (cfg : ExecutorConfig) (cmd : Str) (po : ProcOutcome) :
    Except Str CommandResult :=
  match po with
  | .completed succ code out err =>
    .ok { command := cmd, success := succ, exit_code := code, stdout := out, stderr := err }
  | .timedOut => .error (timeoutErrText cfg cmd)
  | .spawnFailed _ => .error (runFailErrText cmd)

/-- The environment: the executor configuration plus oracles giving the
fate of the n-th spawned process and the n-th advisory fix round-trip. -/
structure Env where
  cfg : ExecutorConfig
  proc : Nat → Str → ProcOutcome
  fix : Nat → Except Str Str

/-- Call counters: number of child processes spawned and of advisory fix
requests made so far. -/
structure Counters where
  procCalls : Nat
  fixCalls : Nat
deriving DecidableEq

/-- One `executor.run_command(...)` call: consults the process oracle at
the current call index with the text actually handed to the shell, and
advances the process counter. -/
def runCmdStep (env : Env) (c : Counters) (cmd : Str) :
    Except Str CommandResult × Counters :=
  (run_command env.cfg cmd (env.proc c.procCalls (shell_command_text env.cfg cmd)),
   { c with procCalls := c.procCalls + 1 })

/-- `Executor::run_commands` (executor.rs lines 87-120): sequential
execution, a failed or error result is recorded and stops the batch. -/
def run_commands (env : Env) : List TaskCommand → Counters → List CommandResult × Counters
  | [], c => ([], c)
  | task :: rest, c =>
    match runCmdStep env c task.command with
    | (.ok result, c1) =>
      if result.success then
        let r := run_commands env rest c1
        (result :: r.1, r.2)
      else ([result], c1)
    | (.error e, c1) =>
      ([{ command := task.command, success := false, exit_code := none,
          stdout := [], stderr := e }], c1)

/-! ### Artifact scanning (`bot.rs` lines 53-102) -/

/-- `bot.rs::IMAGE_EXTENSIONS`. -/
def IMAGE_EXTENSIONS : List Str :=
  [".png".data, ".jpg".data, ".jpeg".data, ".gif".data, ".bmp".data, ".webp".data]

/-- `bot.rs::VIDEO_EXTENSIONS`. -/
def VIDEO_EXTENSIONS : List Str :=
  [".mp4".data, ".webm".data, ".mov".data, ".mkv".data, ".avi".data]

/-- The qualification test of `bot.rs::find_file_paths_by_ext` applied to
an already quote-trimmed token. -/
def qualifiesPath (exts : List Str) (path : Str) : Bool :=
  exts.any (fun e => endsWith e (toLowerStr path))
    && (startsWith "/".data path || startsWith "./".data path)

/-- `bot.rs::find_file_paths_by_ext` (lines 56-70). -/
def find_file_paths_by_ext (text : Str) (exts : List Str) : List Str :=
  (splitWhitespace text).filterMap fun word =>
    let path := trimQuotes word
    if qualifiesPath exts path then some path else none

/-- `bot.rs::find_image_paths`. -/
def find_image_paths (text : Str) : List Str :=
  find_file_paths_by_ext text IMAGE_EXTENSIONS

/-- `bot.rs::find_video_paths`. -/
def find_video_paths (text : Str) : List Str :=
  find_file_paths_by_ext text VIDEO_EXTENSIONS

/-- The collection loop of `bot.rs::find_images_in_results`: stdout,
stderr and command text of every result, in order. -/
def collectImages : List CommandResult → List Str
  | [] => []
  | r :: rest =>
    find_image_paths r.stdout ++ find_image_paths r.stderr
      ++ find_image_paths r.command ++ collectImages rest

/-- The collection loop of `bot.rs::find_videos_in_results`. -/
def collectVideos : List CommandResult → List Str
  | [] => []
  | r :: rest =>
    find_video_paths r.stdout ++ find_video_paths r.stderr
      ++ find_video_paths r.command ++ collectVideos rest

/-- `bot.rs::find_images_in_results` (lines 80-90): collect, sort, dedup. -/
def find_images_in_results (results : List CommandResult) : List Str :=
  dedupAdj (sortStr (collectImages results))

/-- `bot.rs::find_videos_in_results` (lines 92-102). -/
def find_videos_in_results (results : List CommandResult) : List Str :=
  dedupAdj (sortStr (collectVideos results))

/-- Spec-side variant for comparison with the claim's words: remove AT
MOST ONE leading and one trailing quote character from a token (the
source's `trim_matches` removes all of them). -/
def trimOneQuote (w : Str) : Str :=
  let w1 := match w with
    | c :: rest => if isQuoteChar c then rest else w
    | [] => ([] : Str)
  match w1.reverse with
  | c :: rest => if isQuoteChar c then rest.reverse else w1
  | [] => w1

/-- Spec-side variant of the image scan in which tokens are qualified
after trimming only a single quote character per side, following the
claim's words; used only to compare against the source behaviour. -/
def spec_images_single_trim (results : List CommandResult) : List Str :=
  let collect : List CommandResult → List Str := fun rs =>
    rs.flatMap fun r =>
      ([r.stdout, r.stderr, r.command].flatMap fun t =>
        (splitWhitespace t).filterMap fun word =>
          let path := trimOneQuote word
          if qualifiesPath IMAGE_EXTENSIONS path then some path else none)
  dedupAdj (sortStr (collect results))

/-! ### Suggestion-command extraction (`bot.rs` lines 257-306) -/

/-- The backtick character. -/
def tick : Char := Char.ofNat 96

/-- The fence pattern of three backticks. -/
def fencePat : Str := [tick, tick, tick]

/-- The fenced code block the source selects: the text between the first
fence and the next one (or the rest of the text), trimmed. -/
def fencedBlock (s : Str) (a : Nat) : Str :=
  let afterF := s.drop (a + 3)
  match findSub fencePat afterF with
  | some b => trim (afterF.take b)
  | none => trim afterF

/-- Rule (i) as implemented (bot.rs lines 262-279): the block's FIRST
line if non-empty and not a comment; otherwise, for a block of at most 2
lines, its first line whose trim is non-empty and not a comment. -/
def fencedRule (s : Str) : Option Str :=
  match findSub fencePat s with
  | none => none
  | some a =>
    let block := fencedBlock s a
    let firstLine := trim ((lines block).headD [])
    if firstLine ≠ [] && !(startsWith "#".data firstLine) then some firstLine
    else if (lines block).length ≤ 2 then
      match ((lines block).filter
          (fun l => trim l ≠ [] && !(startsWith "#".data (trim l)))).head? with
      | some line => some (trim line)
      | none => none
    else none

/-- Rule (ii) as implemented (bot.rs lines 280-288): ONLY the first
backtick-delimited span is examined; it is returned when non-empty and
containing a space or starting with "/" or "echo". -/
def backtickRule (s : Str) : Option Str :=
  match findChar tick s with
  | none => none
  | some start =>
    let afterT := s.drop (start + 1)
    match findChar tick afterT with
    | none => none
    | some e =>
      let inner := trim (afterT.take e)
      if inner ≠ [] &&
          (inner.contains ' ' || startsWith "/".data inner || startsWith "echo".data inner)
      then some inner else none

/-- Rule (iii) as implemented (bot.rs lines 289-304): first line starting
with a known interpreter/path prefix. -/
def bareLineRule (s : Str) : Option Str :=
  (lines s).findSome? fun l0 =>
    let line := trim l0
    if line = [] || startsWith "#".data line then none
    else if startsWith "ffmpeg ".data line || startsWith "python ".data line
        || startsWith "python3 ".data line || startsWith "/usr/bin/python".data line
        || startsWith "pip ".data line || startsWith "source ".data line
        || (startsWith "/".data line && containsSub "python".data line)
    then some line else none

/-- `bot.rs::extract_command_from_suggestion` (lines 257-306), translated
monolithically following the source's control flow. -/
def extract_command_from_suggestion (s0 : Str) : Option Str :=
  let s := trim s0
  if s = [] then none
  else
    let fromFence : Option Str :=
      match findSub fencePat s with
      | none => none
      | some a =>
        let afterF := s.drop (a + 3)
        let block :=
          match findSub fencePat afterF with
          | some b => trim (afterF.take b)
          | none => trim afterF
        let firstLine := trim ((lines block).headD [])
        if firstLine ≠ [] && !(startsWith "#".data firstLine) then some firstLine
        else if (lines block).length ≤ 2 then
          match ((lines block).filter
              (fun l => trim l ≠ [] && !(startsWith "#".data (trim l)))).head? with
          | some line => some (trim line)
          | none => none
        else none
    match fromFence with
    | some r => some r
    | none =>
      let fromTick : Option Str :=
        match findChar tick s with
        | none => none
        | some start =>
          let afterT := s.drop (start + 1)
          match findChar tick afterT with
          | none => none
          | some e =>
            let inner := trim (afterT.take e)
            if inner ≠ [] &&
                (inner.contains ' ' || startsWith "/".data inner
                  || startsWith "echo".data inner)
            then some inner else none
      match fromTick with
      | some r => some r
      | none =>
        (lines s).findSome? fun l0 =>
          let line := trim l0
          if line = [] || startsWith "#".data line then none
          else if startsWith "ffmpeg ".data line || startsWith "python ".data line
              || startsWith "python3 ".data line || startsWith "/usr/bin/python".data line
              || startsWith "pip ".data line || startsWith "source ".data line
              || (startsWith "/".data line && containsSub "python".data line)
          then some line else none

/-- The claim's rule (i) read literally: the FIRST non-comment, non-empty
line of the fenced code block (each line trimmed); used only to compare
the claim's words against the source behaviour. -/
def spec_fenced_first_line (s : Str) : Option Str :=
  match findSub fencePat s with
  | none => none
  | some a =>
    ((lines (fencedBlock s a)).map trim).find?
      (fun l => l ≠ [] && !(startsWith "#".data l))

/-! ### Slide-deck bypass parsing (`bot.rs` lines 308-344, 520-524) -/

/-- The quote scanner of `parse_ppt_generator_args`: walks `char_indices`
with an in-quote flag, a backslash-escape flag, the current segment start
and the collected `(start, end)` segments (accumulated in reverse). -/
def scanSegs : Str → Nat → Bool → Bool → Nat → List (Nat × Nat) → List (Nat × Nat)
  | [], _, _, _, _, acc => acc.reverse
  | ch :: rest, i, inQuote, escape, segStart, acc =>
    if escape then scanSegs rest (i + 1) inQuote false segStart acc
    else if ch == '\\' && inQuote then scanSegs rest (i + 1) inQuote true segStart acc
    else if ch == '"' then
      if !inQuote then scanSegs rest (i + 1) true false (i + 1) acc
      else scanSegs rest (i + 1) false false segStart ((segStart, i) :: acc)
    else scanSegs rest (i + 1) inQuote escape segStart acc

/-- `bot.rs::parse_ppt_generator_args` (lines 309-344). -/
def parse_ppt_generator_args (cmd0 : Str) : Option (Str × Str) :=
  let cmd := trim cmd0
  if !(startsWith "ppt-generator ".data cmd) then none
  else
    let rest := trimStart (cmd.drop 14)
    match scanSegs rest 0 false false 0 [] with
    | (a0, b0) :: (a1, b1) :: _ =>
      some ((rest.drop a0).take (b0 - a0), (rest.drop a1).take (b1 - a1))
    | _ => none

/-- The bypass gate in `process_message` (bot.rs lines 520-523): taken
when the first Action's command starts (after leading whitespace) with
"ppt-generator " and parses. -/
def pptBypassTaken (commands : List TaskCommand) : Bool :=
  match commands with
  | [] => false
  | c0 :: _ =>
    startsWith "ppt-generator ".data (trimStart c0.command)
      && (parse_ppt_generator_args c0.command).isSome

/-! ### Device-index resolution (`bot.rs` lines 192-254) -/

/-- Decimal value of an all-digit string. -/
def digitsToNat (s : Str) : Nat := s.foldl (fun acc c => acc * 10 + (c.toNat - 48)) 0

/-- The backward bracket scan of `parse_avfoundation_screen_index`
(bot.rs lines 215-227): repeatedly take the last `]` before `idx`, the
last `[` before it, and test the text between for being a non-empty
all-digit group that parses as a `u32`.  The fuel is an upper bound on
the number of iterations; `close` strictly decreases, so
`before.length + 1` is always sufficient. -/
def scanBack (before : Str) : Nat → Nat → Option Nat
  | 0, _ => none
  | fuel + 1, idx =>
    if idx = 0 then none
    else
      match findLastChar ']' (before.take idx) with
      | none => none
      | some close =>
        match findLastChar '[' (before.take close) with
        | none => none
        | some opn =>
          let between := trim ((before.take close).drop (opn + 1))
          if between ≠ [] && between.all Char.isDigit
              && digitsToNat between < 4294967296
          then some (digitsToNat between)
          else scanBack before fuel close

/-- `bot.rs::parse_avfoundation_screen_index` (lines 206-230). -/
def parse_avfoundation_screen_index (stdout : Str) : Option Nat :=
  (lines stdout).findSome? fun line =>
    if containsSub "Capture screen".data line then
      match findSub "Capture screen".data line with
      | none => none
      | some p =>
        let before := line.take p
        scanBack before (before.length + 1) before.length
    else none

/-- `bot.rs::replace_avfoundation_device_index` (lines 233-254): find
`-i `, skip spaces and one optional quote, read a digit run; replace it
with the index only when it is non-empty and immediately followed by the
literal `:0`. -/
def replace_avfoundation_device_index (cmd : Str) (index : Nat) : Str :=
  match findSub "-i ".data cmd with
  | none => cmd
  | some pos =>
    let i0 := pos + 3
    let i1 := i0 + ((cmd.drop i0).takeWhile (fun c => c == ' ')).length
    let i2 :=
      if (cmd.drop i1).head? == some '"' || (cmd.drop i1).head? == some (Char.ofNat 39)
      then i1 + 1 else i1
    let numEnd := i2 + ((cmd.drop i2).takeWhile Char.isDigit).length
    if i2 < numEnd && (cmd.drop numEnd).head? == some ':'
        && (cmd.drop (numEnd + 1)).head? == some '0'
    then cmd.take i2 ++ (Nat.repr index).data ++ cmd.drop numEnd
    else cmd

/-! ### The repair loop (`bot.rs` lines 364-434) -/

/-- The `while !result.success && retry_count < max_fix_retries` loop of
`run_commands_with_fix_retry` (bot.rs lines 390-425), with
`budget = max_fix_retries - retry_count`.  Each iteration performs one
advisory fix request; an advisory error or an unextractable suggestion
ends the loop keeping the current (failed) result; otherwise the
extracted command is executed and becomes the current result, with an
execution error recorded as a failure result. -/
def repairLoop (env : Env) : Nat → CommandResult → Counters → CommandResult × Counters
  | 0, result, c => (result, c)
  | budget + 1, result, c =>
    if result.success then (result, c)
    else
      match env.fix c.fixCalls with
      | .error _ => (result, { c with fixCalls := c.fixCalls + 1 })
      | .ok suggestion =>
        let c1 : Counters := { c with fixCalls := c.fixCalls + 1 }
        match extract_command_from_suggestion (trim suggestion) with
        | none => (result, c1)
        | some fixCmd =>
          match runCmdStep env c1 fixCmd with
          | (.ok r, c2) => repairLoop env budget r c2
          | (.error e, c2) =>
            repairLoop env budget
              { command := fixCmd, success := false, exit_code := none,
                stdout := [], stderr := e } c2

/-- Processing of one Action in `run_commands_with_fix_retry`
(bot.rs lines 374-427): run it; an execution error immediately becomes a
failure result (no repair), otherwise the repair loop produces the final
result for this Action. -/
def processAction (env : Env) (task : TaskCommand) (c : Counters) :
    CommandResult × Counters :=
  match runCmdStep env c task.command with
  | (.ok r, c1) => repairLoop env env.cfg.max_fix_retries r c1
  | (.error e, c1) =>
    ({ command := task.command, success := false, exit_code := none,
       stdout := [], stderr := e }, c1)

/-- `bot.rs::run_commands_with_fix_retry` (lines 364-434): one final
result per processed Action, stopping after the first Action whose final
result is a failure. -/
def run_commands_with_fix_retry (env : Env) :
    List TaskCommand → Counters → List CommandResult × Counters
  | [], c => ([], c)
  | task :: rest, c =>
    let pr := processAction env task c
    if pr.1.success then
      let r := run_commands_with_fix_retry env rest pr.2
      (pr.1 :: r.1, r.2)
    else ([pr.1], pr.2)

/-- An execution attempt that did not succeed: the process either
completed unsuccessfully, timed out, or failed to spawn. -/
def procFails : ProcOutcome → Prop
  | .completed s _ _ _ => s = false
  | .timedOut => True
  | .spawnFailed _ => True

/-! ### Helper lemmas -/

theorem dropWhile_shape (p : Char → Bool) :
    ∀ l : Str, l.dropWhile p = [] ∨
      ∃ a t, l.dropWhile p = a :: t ∧ p a = false := by
  intro l
  induction l with
  | nil => left; rfl
  | cons a l ih =>
    by_cases h : p a
    · simpa [List.dropWhile, h] using ih
    · right; exact ⟨a, l, by simp [List.dropWhile, h], by simp [h]⟩

theorem dropWhile_idem (p : Char → Bool) :
    ∀ l : Str, (l.dropWhile p).dropWhile p = l.dropWhile p := by
  intro l
  rcases dropWhile_shape p l with h | ⟨a, t, h, hpa⟩
  · simp [h]
  · simp [h, List.dropWhile, hpa]

theorem trimStart_split (s : Str) :
    s = (s.reverse.dropWhile isWS).reverse
        ++ (s.reverse.takeWhile isWS).reverse := by
  have h := List.takeWhile_append_dropWhile (p := isWS) (l := s.reverse)
  calc s = s.reverse.reverse := (List.reverse_reverse s).symm
    _ = (s.reverse.takeWhile isWS ++ s.reverse.dropWhile isWS).reverse := by rw [h]
    _ = _ := by rw [List.reverse_append]

theorem trimEnd_head? (s : Str) (h : trimEnd s ≠ []) :
    (trimEnd s).head? = s.head? := by
  cases h2 : trimEnd s with
  | nil => exact absurd h2 h
  | cons a t =>
    have hs : s = (a :: t) ++ (s.reverse.takeWhile isWS).reverse := by
      have h3 := trimStart_split s
      rw [show (s.reverse.dropWhile isWS).reverse = trimEnd s from rfl, h2] at h3
      exact h3
    conv_rhs => rw [hs]
    simp

theorem trimStart_of_head_not (s : Str)
    (h : ∀ a, s.head? = some a → isWS a = false) : trimStart s = s := by
  cases s with
  | nil => rfl
  | cons a t =>
    have := h a rfl
    simp [trimStart, List.dropWhile, this]

theorem trimStart_head_not (s : Str) :
    ∀ a, (trimStart s).head? = some a → isWS a = false := by
  intro a ha
  rcases dropWhile_shape isWS s with h | ⟨b, t, h, hpb⟩
  · simp [trimStart, h] at ha
  · simp [trimStart, h] at ha
    exact ha ▸ hpb

theorem trimEnd_trimEnd (s : Str) : trimEnd (trimEnd s) = trimEnd s := by
  unfold trimEnd
  rw [List.reverse_reverse, dropWhile_idem]

theorem trimStart_trimEnd_trimStart (s : Str) :
    trimStart (trimEnd (trimStart s)) = trimEnd (trimStart s) := by
  apply trimStart_of_head_not
  intro a ha
  have hne : trimEnd (trimStart s) ≠ [] := by
    intro h0; rw [h0] at ha; simp at ha
  rw [trimEnd_head? _ hne] at ha
  exact trimStart_head_not s a ha

theorem trim_idem (s : Str) : trim (trim s) = trim s := by
  unfold trim
  rw [trimStart_trimEnd_trimStart, trimEnd_trimEnd]

theorem startsWith_append_self (p t : Str) : startsWith p (p ++ t) = true := by
  induction p with
  | nil => rfl
  | cons a q ih => simp [startsWith, ih]

theorem ne_nil_of_startsWith {p s : Str} (hp : p ≠ [])
    (h : startsWith p s = true) : s ≠ [] := by
  cases p with
  | nil => exact absurd rfl hp
  | cons a q => cases s with
    | nil => simp [startsWith] at h
    | cons b t => simp

theorem matchOrElse2 (y z : Option Str) :
    (match y with | some r => some r | none => z)
      = Option.orElse none (fun _ => Option.orElse y fun _ => z) := by
  cases y <;> rfl

theorem matchOrElse3 (x y z : Option Str) :
    (match x with
     | some r => some r
     | none => match y with | some r => some r | none => z)
      = Option.orElse x (fun _ => Option.orElse y fun _ => z) := by
  cases x <;> cases y <;> rfl

/-- The monolithic translation decomposes into the three extraction rules
tried in fixed priority order on the trimmed suggestion. -/
theorem extract_eq_rules (s0 : Str) :
    extract_command_from_suggestion s0 =
      (if trim s0 = [] then none
       else ((fencedRule (trim s0)).orElse fun _ =>
              (backtickRule (trim s0)).orElse fun _ => bareLineRule (trim s0))) := by
  unfold extract_command_from_suggestion fencedRule backtickRule bareLineRule fencedBlock
  by_cases h : trim s0 = []
  · simp [h]
  · simp only [h, if_false]
    cases hf : findSub fencePat (trim s0)
    · exact matchOrElse2 _ _
    · exact matchOrElse3 _ _ _

theorem mem_dropLast_cons {α : Type} {a x : α} {l : List α}
    (hx : x ∈ (a :: l).dropLast) : x = a ∨ x ∈ l.dropLast := by
  cases l with
  | nil => simp at hx
  | cons y ys =>
    rw [List.dropLast_cons₂, List.mem_cons] at hx
    exact hx

/-- Structural facts about `run_commands_with_fix_retry`: at most one
result per Action, every non-final result succeeded, an early stop ends
in a failed result, and the output (results and counters) is already
produced by the plan truncated to the processed prefix. -/
theorem rcwfr_spec (env : Env) :
    ∀ (plan : List TaskCommand) (c : Counters),
      (run_commands_with_fix_retry env plan c).1.length ≤ plan.length
      ∧ (∀ x ∈ (run_commands_with_fix_retry env plan c).1.dropLast, x.success = true)
      ∧ ((run_commands_with_fix_retry env plan c).1.length < plan.length →
          ∃ r, (run_commands_with_fix_retry env plan c).1.getLast? = some r
            ∧ r.success = false)
      ∧ run_commands_with_fix_retry env
          (plan.take (run_commands_with_fix_retry env plan c).1.length) c
          = run_commands_with_fix_retry env plan c := by
  intro plan
  induction plan with
  | nil =>
    intro c
    refine ⟨Nat.le_refl _, ?_, ?_, rfl⟩ <;> simp [run_commands_with_fix_retry]
  | cons task rest ih =>
    intro c
    by_cases hs : (processAction env task c).1.success
    · obtain ⟨ih1, ih2, ih3, ih4⟩ := ih (processAction env task c).2
      have hrw : run_commands_with_fix_retry env (task :: rest) c
          = ((processAction env task c).1
              :: (run_commands_with_fix_retry env rest (processAction env task c).2).1,
             (run_commands_with_fix_retry env rest (processAction env task c).2).2) := by
        simp [run_commands_with_fix_retry, hs]
      refine ⟨?_, ?_, ?_, ?_⟩
      · rw [hrw]; simpa using Nat.succ_le_succ ih1
      · rw [hrw]
        intro x hx
        rcases mem_dropLast_cons hx with hx | hx
        · exact hx ▸ hs
        · exact ih2 x hx
      · rw [hrw]
        intro hlt
        simp only [List.length_cons, Nat.add_lt_add_iff_right] at hlt
        have hlt2 : (run_commands_with_fix_retry env rest (processAction env task c).2).1.length
            < rest.length := by simpa using hlt
        obtain ⟨r, hr, hrf⟩ := ih3 hlt2
        refine ⟨r, ?_, hrf⟩
        simp [List.getLast?_cons, hr]
      · rw [hrw]
        simp only [List.length_cons, List.take_succ_cons]
        have : run_commands_with_fix_retry env
            (task :: rest.take (run_commands_with_fix_retry env rest
              (processAction env task c).2).1.length) c
            = ((processAction env task c).1
                :: (run_commands_with_fix_retry env
                    (rest.take (run_commands_with_fix_retry env rest
                      (processAction env task c).2).1.length) (processAction env task c).2).1,
               (run_commands_with_fix_retry env
                    (rest.take (run_commands_with_fix_retry env rest
                      (processAction env task c).2).1.length) (processAction env task c).2).2) := by
          simp [run_commands_with_fix_retry, hs]
        rw [this, ih4]
    · have hrw : run_commands_with_fix_retry env (task :: rest) c
          = ([(processAction env task c).1], (processAction env task c).2) := by
        simp [run_commands_with_fix_retry, hs]
      refine ⟨?_, ?_, ?_, ?_⟩
      · rw [hrw]; simp
      · rw [hrw]; intro x hx; simp at hx
      · rw [hrw]
        intro _
        exact ⟨(processAction env task c).1, by simp, by simpa using hs⟩
      · rw [hrw]
        simp only [List.length_cons]
        have : run_commands_with_fix_retry env (task :: ([] : List TaskCommand)) c
            = ([(processAction env task c).1], (processAction env task c).2) := by
          simp [run_commands_with_fix_retry, hs]
        simpa using this

/-- The same structural facts for the plain `Executor::run_commands`. -/
theorem run_commands_spec (env : Env) :
    ∀ (plan : List TaskCommand) (c : Counters),
      (run_commands env plan c).1.length ≤ plan.length
      ∧ (∀ x ∈ (run_commands env plan c).1.dropLast, x.success = true)
      ∧ ((run_commands env plan c).1.length < plan.length →
          ∃ r, (run_commands env plan c).1.getLast? = some r ∧ r.success = false)
      ∧ run_commands env (plan.take (run_commands env plan c).1.length) c
          = run_commands env plan c := by
  intro plan
  induction plan with
  | nil =>
    intro c
    refine ⟨Nat.le_refl _, ?_, ?_, rfl⟩ <;> simp [run_commands]
  | cons task rest ih =>
    intro c
    rcases hstep : runCmdStep env c task.command with ⟨res, c1⟩
    cases res with
    | ok result =>
      by_cases hs : result.success
      · obtain ⟨ih1, ih2, ih3, ih4⟩ := ih c1
        have hrw : run_commands env (task :: rest) c
            = (result :: (run_commands env rest c1).1, (run_commands env rest c1).2) := by
          simp [run_commands, hstep, hs]
        refine ⟨?_, ?_, ?_, ?_⟩
        · rw [hrw]; simpa using Nat.succ_le_succ ih1
        · rw [hrw]
          intro x hx
          rcases mem_dropLast_cons hx with hx | hx
          · exact hx ▸ hs
          · exact ih2 x hx
        · rw [hrw]
          intro hlt
          simp only [List.length_cons, Nat.add_lt_add_iff_right] at hlt
          have hlt2 : (run_commands env rest c1).1.length < rest.length := by
            simpa using hlt
          obtain ⟨r, hr, hrf⟩ := ih3 hlt2
          refine ⟨r, ?_, hrf⟩
          simp [List.getLast?_cons, hr]
        · rw [hrw]
          simp only [List.length_cons, List.take_succ_cons]
          have : run_commands env
              (task :: rest.take (run_commands env rest c1).1.length) c
              = (result :: (run_commands env (rest.take (run_commands env rest c1).1.length) c1).1,
                 (run_commands env (rest.take (run_commands env rest c1).1.length) c1).2) := by
            simp [run_commands, hstep, hs]
          rw [this, ih4]
      · have hrw : run_commands env (task :: rest) c = ([result], c1) := by
          simp [run_commands, hstep, hs]
        refine ⟨?_, ?_, ?_, ?_⟩
        · rw [hrw]; simp
        · rw [hrw]; intro x hx; simp at hx
        · rw [hrw]
          intro _
          exact ⟨result, by simp, by simpa using hs⟩
        · rw [hrw]
          simp only [List.length_cons]
          have : run_commands env (task :: ([] : List TaskCommand)) c = ([result], c1) := by
            simp [run_commands, hstep, hs]
          simpa using this
    | error e =>
      have hrw : run_commands env (task :: rest) c
          = ([{ command := task.command, success := false, exit_code := none,
                stdout := [], stderr := e }], c1) := by
        simp [run_commands, hstep]
      refine ⟨?_, ?_, ?_, ?_⟩
      · rw [hrw]; simp
      · rw [hrw]; intro x hx; simp at hx
      · rw [hrw]
        intro _
        exact ⟨{ command := task.command, success := false, exit_code := none,
                 stdout := [], stderr := e }, by simp, rfl⟩
      · rw [hrw]
        simp only [List.length_cons]
        have : run_commands env (task :: ([] : List TaskCommand)) c
            = ([{ command := task.command, success := false, exit_code := none,
                  stdout := [], stderr := e }], c1) := by
          simp [run_commands, hstep]
        simpa using this

/-- Each repair-loop iteration performs at most one advisory fix request,
so a budget of `b` allows at most `b` requests. -/
theorem repairLoop_fixCalls (env : Env) :
    ∀ (b : Nat) (r : CommandResult) (c : Counters),
      (repairLoop env b r c).2.fixCalls ≤ c.fixCalls + b := by
  intro b
  induction b with
  | zero => intro r c; simp [repairLoop]
  | succ b ih =>
    intro r c
    unfold repairLoop
    by_cases hs : r.success = true
    · simp [hs]
    · simp only [hs, if_false, Bool.false_eq_true]
      cases hf : env.fix c.fixCalls with
      | error e => dsimp only; omega
      | ok sug =>
        dsimp only
        cases he : extract_command_from_suggestion (trim sug) with
        | none => dsimp only; omega
        | some fixCmd =>
          dsimp only [runCmdStep, run_command]
          cases hpo : env.proc c.procCalls (shell_command_text env.cfg fixCmd) with
          | completed succ code out err =>
            dsimp only
            exact le_trans (ih _ _) (by dsimp only; omega)
          | timedOut =>
            dsimp only
            exact le_trans (ih _ _) (by dsimp only; omega)
          | spawnFailed m =>
            dsimp only
            exact le_trans (ih _ _) (by dsimp only; omega)

/-- The initial run of an Action performs no fix request, so one Action
accounts for at most `max_fix_retries` advisory fix requests. -/
theorem processAction_fixCalls (env : Env) (task : TaskCommand) (c : Counters) :
    (processAction env task c).2.fixCalls ≤ c.fixCalls + env.cfg.max_fix_retries := by
  unfold processAction runCmdStep
  cases run_command env.cfg task.command
      (env.proc c.procCalls (shell_command_text env.cfg task.command)) with
  | ok r =>
    simpa using repairLoop_fixCalls env env.cfg.max_fix_retries r
      { c with procCalls := c.procCalls + 1 }
  | error e => simp

/-- A timed-out initial run is recorded as a failure result carrying the
timeout context text; no exception reaches the plan loop. -/
theorem processAction_timedOut (env : Env) (task : TaskCommand) (c : Counters)
    (h : env.proc c.procCalls (shell_command_text env.cfg task.command)
        = ProcOutcome.timedOut) :
    (processAction env task c).1
      = { command := task.command, success := false, exit_code := none,
          stdout := [], stderr := timeoutErrText env.cfg task.command } := by
  unfold processAction runCmdStep
  rw [h]
  rfl

/-- A failed spawn is recorded as a failure result carrying the run
failure context text. -/
theorem processAction_spawnFailed (env : Env) (task : TaskCommand) (c : Counters)
    (m : Str)
    (h : env.proc c.procCalls (shell_command_text env.cfg task.command)
        = ProcOutcome.spawnFailed m) :
    (processAction env task c).1
      = { command := task.command, success := false, exit_code := none,
          stdout := [], stderr := runFailErrText task.command } := by
  unfold processAction runCmdStep
  rw [h]
  rfl

theorem containsSub_of_startsWith (pat s : Str) (h : startsWith pat s = true) :
    containsSub pat s = true := by
  cases s with
  | nil => simp [containsSub, findSub, h]
  | cons a t => simp [containsSub, findSub, h]

theorem startsWith_timeoutErrText (cfg : ExecutorConfig) (cmd : Str) :
    startsWith "命令超时".data (timeoutErrText cfg cmd) = true := by
  have h : "命令超时 (".data = "命令超时".data ++ " (".data := by decide
  unfold timeoutErrText
  rw [h]
  simp only [List.append_assoc]
  exact startsWith_append_self _ _

theorem startsWith_runFailErrText (cmd : Str) :
    startsWith "命令执行失败".data (runFailErrText cmd) = true := by
  have h : "命令执行失败: ".data = "命令执行失败".data ++ ": ".data := by decide
  unfold runFailErrText
  rw [h]
  simp only [List.append_assoc]
  exact startsWith_append_self _ _

/-! ### Lemmas for the slide-deck bypass parser -/

/-- A string containing neither a double quote nor a backslash. -/
def quoteFree (t : Str) : Bool := t.all fun ch => !(ch == '"') && !(ch == '\\')

/-- A well-formed two-argument slide-deck command. -/
def pptCmd2 (t c : Str) : Str :=
  "ppt-generator \"".data ++ t ++ "\" \"".data ++ c ++ "\"".data

/-- A one-argument slide-deck command. -/
def pptCmd1 (t : Str) : Str := "ppt-generator \"".data ++ t ++ "\"".data

/-- Scanning quote/backslash-free text inside a quoted segment changes no
scanner state except the position. -/
theorem scanSegs_skip_quote :
    ∀ (t : Str), quoteFree t = true →
      ∀ (rest : Str) (i segStart : Nat) (acc : List (Nat × Nat)),
        scanSegs (t ++ rest) i true false segStart acc
          = scanSegs rest (i + t.length) true false segStart acc := by
  intro t
  induction t with
  | nil => intro _ rest i segStart acc; simp
  | cons ch t ih =>
    intro hq rest i segStart acc
    simp only [quoteFree, List.all_cons, Bool.and_eq_true, Bool.not_eq_true'] at hq
    obtain ⟨⟨hch1, hch2⟩, hqt⟩ := hq
    show scanSegs (ch :: (t ++ rest)) i true false segStart acc = _
    conv_lhs => unfold scanSegs
    rw [if_neg (by simp), if_neg (by simp [hch2]), if_neg (by simp [hch1])]
    rw [ih hqt rest (i + 1) segStart acc]
    have harith : i + 1 + t.length = i + (ch :: t).length := by
      simp
      omega
    rw [harith]

theorem trimEnd_of_last_not (s : Str)
    (h : ∀ a, s.getLast? = some a → isWS a = false) : trimEnd s = s := by
  unfold trimEnd
  cases hr : s.reverse with
  | nil =>
    have : s = [] := by simpa using congrArg List.reverse hr
    simp [this]
  | cons a t =>
    have ha : isWS a = false := by
      apply h
      rw [← List.head?_reverse, hr]
      rfl
    rw [List.dropWhile_cons, ha]
    simp only [Bool.false_eq_true, if_false]
    rw [← hr, List.reverse_reverse]

theorem trim_eq_self (s : Str)
    (h1 : ∀ a, s.head? = some a → isWS a = false)
    (h2 : ∀ a, s.getLast? = some a → isWS a = false) : trim s = s := by
  unfold trim
  rw [trimStart_of_head_not s h1, trimEnd_of_last_not s h2]

/-- The inner shape of a two-argument command after the `ppt-generator `
marker is dropped. -/
def pptRest2 (t c : Str) : Str :=
  '"' :: (t ++ ('"' :: ' ' :: '"' :: (c ++ ['"'])))

theorem pptCmd2_decomp (t c : Str) :
    pptCmd2 t c = "ppt-generator ".data ++ pptRest2 t c := by
  have h1 : "ppt-generator \"".data = "ppt-generator ".data ++ ['"'] := by decide
  have h2 : "\" \"".data = ['"', ' ', '"'] := by decide
  have h3 : "\"".data = ['"'] := by decide
  simp [pptCmd2, pptRest2, h1, h2, h3]

theorem pptCmd1_decomp (t : Str) :
    pptCmd1 t = "ppt-generator ".data ++ ('"' :: (t ++ ['"'])) := by
  have h1 : "ppt-generator \"".data = "ppt-generator ".data ++ ['"'] := by decide
  have h3 : "\"".data = ['"'] := by decide
  simp [pptCmd1, h1, h3]

theorem scanSegs_pptRest2 (t c : Str) (ht : quoteFree t = true)
    (hc : quoteFree c = true) :
    scanSegs (pptRest2 t c) 0 false false 0 []
      = [(1, 1 + t.length), (t.length + 4, t.length + 4 + c.length)] := by
  have s1 : scanSegs (pptRest2 t c) 0 false false 0 []
      = scanSegs (t ++ ('"' :: ' ' :: '"' :: (c ++ ['"']))) 1 true false 1 [] := rfl
  rw [s1, scanSegs_skip_quote t ht]
  have s2 : scanSegs ('"' :: ' ' :: '"' :: (c ++ ['"'])) (1 + t.length) true false 1 []
      = scanSegs (c ++ ['"'])
          (1 + t.length + 1 + 1 + 1) true false (1 + t.length + 1 + 1 + 1)
          [(1, 1 + t.length)] := rfl
  rw [s2, scanSegs_skip_quote c hc]
  have s3 : scanSegs ['"'] (1 + t.length + 1 + 1 + 1 + c.length) true false
        (1 + t.length + 1 + 1 + 1) [(1, 1 + t.length)]
      = [(1, 1 + t.length),
         (1 + t.length + 1 + 1 + 1, 1 + t.length + 1 + 1 + 1 + c.length)] := rfl
  rw [s3]
  have e1 : 1 + t.length + 1 + 1 + 1 = t.length + 4 := by omega
  rw [e1]

theorem parse_pptCmd2 (t c : Str) (ht : quoteFree t = true)
    (hc : quoteFree c = true) :
    parse_ppt_generator_args (pptCmd2 t c) = some (t, c) := by
  have htrim : trim (pptCmd2 t c) = pptCmd2 t c := by
    apply trim_eq_self
    · intro a ha
      rw [pptCmd2_decomp] at ha
      have hpa : 'p' = a := by simpa using ha
      rw [← hpa]
      rfl
    · intro a ha
      have hform : pptCmd2 t c
          = ("ppt-generator \"".data ++ t ++ "\" \"".data ++ c) ++ ['"'] := by
        simp [pptCmd2]
      rw [hform, List.getLast?_concat] at ha
      have hqa : '"' = a := by simpa using ha
      rw [← hqa]
      rfl
  unfold parse_ppt_generator_args
  rw [htrim, pptCmd2_decomp]
  rw [if_neg (by rw [startsWith_append_self]; simp)]
  have hdrop : ("ppt-generator ".data ++ pptRest2 t c).drop 14 = pptRest2 t c := by
    rw [show (14 : Nat) = ("ppt-generator ".data).length from by decide]
    exact List.drop_left _ _
  rw [hdrop]
  have hts : trimStart (pptRest2 t c) = pptRest2 t c := by
    apply trimStart_of_head_not
    intro a ha
    have hqa : '"' = a := by simpa [pptRest2] using ha
    rw [← hqa]
    rfl
  rw [hts]
  dsimp only
  rw [scanSegs_pptRest2 t c ht hc]
  have hslice1 : ((pptRest2 t c).drop 1).take (1 + t.length - 1) = t := by
    have : (pptRest2 t c).drop 1 = t ++ ('"' :: ' ' :: '"' :: (c ++ ['"'])) := rfl
    rw [this, show 1 + t.length - 1 = t.length from by omega]
    exact List.take_left _ _
  have hsplit : pptRest2 t c
      = ('"' :: (t ++ ['"', ' ', '"'])) ++ (c ++ ['"']) := by
    simp [pptRest2]
  have hlen4 : ('"' :: (t ++ ['"', ' ', '"'])).length = t.length + 4 := by
    simp
  have hslice2 : ((pptRest2 t c).drop (t.length + 4)).take
      (t.length + 4 + c.length - (t.length + 4)) = c := by
    rw [show t.length + 4 + c.length - (t.length + 4) = c.length from by omega]
    rw [hsplit, ← hlen4, List.drop_left]
    exact List.take_left _ _
  dsimp only
  rw [hslice1, hslice2]

theorem parse_pptCmd1 (t : Str) (ht : quoteFree t = true) :
    parse_ppt_generator_args (pptCmd1 t) = none := by
  have htrim : trim (pptCmd1 t) = pptCmd1 t := by
    apply trim_eq_self
    · intro a ha
      rw [pptCmd1_decomp] at ha
      have hpa : 'p' = a := by simpa using ha
      rw [← hpa]
      rfl
    · intro a ha
      have hform : pptCmd1 t = ("ppt-generator \"".data ++ t) ++ ['"'] := by
        simp [pptCmd1]
      rw [hform, List.getLast?_concat] at ha
      have hqa : '"' = a := by simpa using ha
      rw [← hqa]
      rfl
  unfold parse_ppt_generator_args
  rw [htrim, pptCmd1_decomp]
  rw [if_neg (by rw [startsWith_append_self]; simp)]
  have hdrop : ("ppt-generator ".data ++ ('"' :: (t ++ ['"']))).drop 14
      = '"' :: (t ++ ['"']) := by
    rw [show (14 : Nat) = ("ppt-generator ".data).length from by decide]
    exact List.drop_left _ _
  rw [hdrop]
  have hts : trimStart ('"' :: (t ++ ['"'])) = '"' :: (t ++ ['"']) := by
    apply trimStart_of_head_not
    intro a ha
    have hqa : '"' = a := by simpa using ha
    rw [← hqa]
    rfl
  rw [hts]
  dsimp only
  have hscan : scanSegs ('"' :: (t ++ ['"'])) 0 false false 0 []
      = [(1, 1 + t.length)] := by
    have s1 : scanSegs ('"' :: (t ++ ['"'])) 0 false false 0 []
        = scanSegs (t ++ ['"']) 1 true false 1 [] := rfl
    rw [s1, scanSegs_skip_quote t ht]
    rfl
  rw [hscan]

/-! ### Lemmas for suggestion extraction outputs (trimmed, non-empty) -/

theorem mem_of_head?_eq_some {α : Type} {l : List α} {a : α}
    (h : l.head? = some a) : a ∈ l := by
  cases l with
  | nil => simp at h
  | cons x xs => simp_all

theorem fencedRule_some (s r : Str) (h : fencedRule s = some r) :
    r ≠ [] ∧ trim r = r := by
  unfold fencedRule at h
  cases hfp : findSub fencePat s with
  | none => rw [hfp] at h; simp at h
  | some a =>
    rw [hfp] at h
    dsimp only at h
    by_cases h1 : (trim ((lines (fencedBlock s a)).headD []) ≠ []
        && !(startsWith "#".data (trim ((lines (fencedBlock s a)).headD [])))) = true
    · rw [if_pos h1] at h
      rw [Bool.and_eq_true] at h1
      have hr : r = trim ((lines (fencedBlock s a)).headD []) := by
        simpa using h.symm
      subst hr
      refine ⟨by simpa using h1.1, trim_idem _⟩
    · rw [if_neg h1] at h
      by_cases h2 : (lines (fencedBlock s a)).length ≤ 2
      · rw [if_pos h2] at h
        cases hh : ((lines (fencedBlock s a)).filter
            (fun l => trim l ≠ [] && !(startsWith "#".data (trim l)))).head? with
        | none => rw [hh] at h; simp at h
        | some line =>
          rw [hh] at h
          have hmem := mem_of_head?_eq_some hh
          rw [List.mem_filter] at hmem
          have hcond := hmem.2
          rw [Bool.and_eq_true] at hcond
          have hr : r = trim line := by simpa using h.symm
          subst hr
          refine ⟨by simpa using hcond.1, trim_idem _⟩
      · rw [if_neg h2] at h
        simp at h

theorem backtickRule_some (s r : Str) (h : backtickRule s = some r) :
    r ≠ [] ∧ trim r = r := by
  unfold backtickRule at h
  cases ht1 : findChar tick s with
  | none => rw [ht1] at h; simp at h
  | some start =>
    rw [ht1] at h
    dsimp only at h
    cases ht2 : findChar tick (s.drop (start + 1)) with
    | none => rw [ht2] at h; simp at h
    | some e =>
      rw [ht2] at h
      dsimp only at h
      by_cases hc : (trim ((s.drop (start + 1)).take e) ≠ []
          && ((trim ((s.drop (start + 1)).take e)).contains ' '
            || startsWith "/".data (trim ((s.drop (start + 1)).take e))
            || startsWith "echo".data (trim ((s.drop (start + 1)).take e)))) = true
      · rw [if_pos (by exact hc)] at h
        rw [Bool.and_eq_true] at hc
        have hr : r = trim ((s.drop (start + 1)).take e) := by simpa using h.symm
        subst hr
        refine ⟨by simpa using hc.1, trim_idem _⟩
      · rw [if_neg (by exact hc)] at h
        simp at h

theorem bareLineRule_some (s r : Str) (h : bareLineRule s = some r) :
    r ≠ [] ∧ trim r = r := by
  unfold bareLineRule at h
  obtain ⟨l0, _, hl0⟩ := List.exists_of_findSome?_eq_some h
  dsimp only at hl0
  by_cases hempty : (trim l0 = [] || startsWith "#".data (trim l0)) = true
  · rw [if_pos hempty] at hl0
    simp at hl0
  · rw [if_neg hempty] at hl0
    by_cases hpre : (startsWith "ffmpeg ".data (trim l0)
        || startsWith "python ".data (trim l0)
        || startsWith "python3 ".data (trim l0)
        || startsWith "/usr/bin/python".data (trim l0)
        || startsWith "pip ".data (trim l0)
        || startsWith "source ".data (trim l0)
        || (startsWith "/".data (trim l0) && containsSub "python".data (trim l0))) = true
    · rw [if_pos hpre] at hl0
      have hr : r = trim l0 := by simpa using hl0.symm
      subst hr
      rw [Bool.or_eq_true] at hempty
      push_neg at hempty
      refine ⟨?_, trim_idem _⟩
      intro h0
      exact hempty.1 (by simp [h0])
    · rw [if_neg hpre] at hl0
      simp at hl0

/-! ### Order lemmas for the artifact lists -/

/-- The ordering proposition used for sortedness statements. -/
def leP (a b : Str) : Prop := leStr a b = true

theorem leStr_total : ∀ a b : Str, leStr a b = true ∨ leStr b a = true := by
  intro a
  induction a with
  | nil => intro b; left; rfl
  | cons x xs ih =>
    intro b
    cases b with
    | nil => right; rfl
    | cons y ys =>
      rcases Nat.lt_trichotomy x.toNat y.toNat with h | h | h
      · left
        simp [leStr, h]
      · have h1 : ¬ x.toNat < y.toNat := by omega
        have h2 : ¬ y.toNat < x.toNat := by omega
        rcases ih ys with hh | hh
        · left
          simp [leStr, h1, h2, hh]
        · right
          simp [leStr, h1, h2, hh]
      · right
        simp [leStr, h]

theorem leStr_trans :
    ∀ a b c : Str, leStr a b = true → leStr b c = true → leStr a c = true := by
  intro a
  induction a with
  | nil => intro b c _ _; rfl
  | cons x xs ih =>
    intro b c hab hbc
    cases b with
    | nil => simp [leStr] at hab
    | cons y ys =>
      cases c with
      | nil => simp [leStr] at hbc
      | cons z zs =>
        simp only [leStr] at hab hbc ⊢
        have hxy : x.toNat < y.toNat
            ∨ (x.toNat = y.toNat ∧ leStr xs ys = true) := by
          by_cases h1 : x.toNat < y.toNat
          · exact Or.inl h1
          · by_cases h2 : y.toNat < x.toNat
            · rw [if_neg h1, if_pos h2] at hab
              exact absurd hab (by simp)
            · rw [if_neg h1, if_neg h2] at hab
              exact Or.inr ⟨by omega, hab⟩
        have hyz : y.toNat < z.toNat
            ∨ (y.toNat = z.toNat ∧ leStr ys zs = true) := by
          by_cases h1 : y.toNat < z.toNat
          · exact Or.inl h1
          · by_cases h2 : z.toNat < y.toNat
            · rw [if_neg h1, if_pos h2] at hbc
              exact absurd hbc (by simp)
            · rw [if_neg h1, if_neg h2] at hbc
              exact Or.inr ⟨by omega, hbc⟩
        rcases hxy with h1 | ⟨he1, hr1⟩ <;> rcases hyz with h2 | ⟨he2, hr2⟩
        · rw [if_pos (show x.toNat < z.toNat by omega)]
        · rw [if_pos (show x.toNat < z.toNat by omega)]
        · rw [if_pos (show x.toNat < z.toNat by omega)]
        · rw [if_neg (show ¬ x.toNat < z.toNat by omega),
              if_neg (show ¬ z.toNat < x.toNat by omega)]
          exact ih ys zs hr1 hr2

theorem leStr_antisymm :
    ∀ a b : Str, leStr a b = true → leStr b a = true → a = b := by
  intro a
  induction a with
  | nil =>
    intro b _ hba
    cases b with
    | nil => rfl
    | cons y ys => simp [leStr] at hba
  | cons x xs ih =>
    intro b hab hba
    cases b with
    | nil => simp [leStr] at hab
    | cons y ys =>
      simp only [leStr] at hab hba
      by_cases h1 : x.toNat < y.toNat
      · have h2 : ¬ y.toNat < x.toNat := by omega
        simp [h1, h2] at hba
      · by_cases h2 : y.toNat < x.toNat
        · simp [h1, h2] at hab
        · simp only [h1, h2, if_neg, if_false] at hab hba
          have hxy : x = y := by
            have : x.toNat = y.toNat := by omega
            have h4 := congrArg Char.ofNat this
            rwa [Char.ofNat_toNat, Char.ofNat_toNat] at h4
          rw [hxy, ih ys hab hba]

theorem mem_insertSorted (a x : Str) :
    ∀ l : List Str, x ∈ insertSorted a l ↔ x = a ∨ x ∈ l := by
  intro l
  induction l with
  | nil => simp [insertSorted]
  | cons b bs ih =>
    by_cases h : leStr a b = true
    · simp [insertSorted, h]
    · simp only [insertSorted, h, if_false, Bool.false_eq_true, List.mem_cons, ih]
      tauto

theorem pairwise_insertSorted (a : Str) :
    ∀ l : List Str, l.Pairwise leP → (insertSorted a l).Pairwise leP := by
  intro l
  induction l with
  | nil => intro _; simp [insertSorted, leP]
  | cons b bs ih =>
    intro hp
    rw [List.pairwise_cons] at hp
    by_cases h : leStr a b = true
    · rw [show insertSorted a (b :: bs) = a :: b :: bs from by simp [insertSorted, h]]
      rw [List.pairwise_cons]
      constructor
      · intro x hx
        rcases List.mem_cons.mp hx with hx | hx
        · exact hx ▸ h
        · exact leStr_trans a b x h (hp.1 x hx)
      · rw [List.pairwise_cons]
        exact hp
    · rw [show insertSorted a (b :: bs) = b :: insertSorted a bs from by
        simp [insertSorted, h]]
      rw [List.pairwise_cons]
      constructor
      · intro x hx
        rcases (mem_insertSorted a x bs).mp hx with hx | hx
        · rw [hx]
          rcases leStr_total a b with hh | hh
          · exact absurd hh h
          · exact hh
        · exact hp.1 x hx
      · exact ih hp.2

theorem pairwise_sortStr : ∀ l : List Str, (sortStr l).Pairwise leP := by
  intro l
  induction l with
  | nil => simp [sortStr]
  | cons a as ih => exact pairwise_insertSorted a (sortStr as) ih

theorem mem_sortStr (x : Str) : ∀ l : List Str, x ∈ sortStr l ↔ x ∈ l := by
  intro l
  induction l with
  | nil => simp [sortStr]
  | cons a as ih =>
    simp only [sortStr, mem_insertSorted, ih, List.mem_cons]

theorem dedupAdjAfter_props :
    ∀ (l : List Str) (p : Str), (p :: l).Pairwise leP →
      (dedupAdjAfter p l).Nodup
      ∧ (dedupAdjAfter p l).Pairwise leP
      ∧ (∀ x ∈ dedupAdjAfter p l, x ≠ p ∧ leP p x)
      ∧ (∀ x ∈ dedupAdjAfter p l, x ∈ l)
      ∧ (∀ x ∈ l, x ∈ dedupAdjAfter p l ∨ x = p) := by
  intro l
  induction l with
  | nil => intro p _; simp [dedupAdjAfter]
  | cons b rest ih =>
    intro p hp
    rw [List.pairwise_cons] at hp
    have hpb : leP p b := hp.1 b (by simp)
    have hPrest : (b :: rest).Pairwise leP := hp.2
    by_cases hbp : b = p
    · subst hbp
      have hfold : dedupAdjAfter b (b :: rest) = dedupAdjAfter b rest := by
        simp [dedupAdjAfter]
      obtain ⟨ih1, ih2, ih3, ih4, ih5⟩ := ih b hPrest
      rw [hfold]
      refine ⟨ih1, ih2, ih3, ?_, ?_⟩
      · intro x hx
        exact List.mem_cons_of_mem b (ih4 x hx)
      · intro x hx
        rcases List.mem_cons.mp hx with hx | hx
        · right; exact hx
        · exact ih5 x hx
    · have hfold : dedupAdjAfter p (b :: rest) = b :: dedupAdjAfter b rest := by
        simp [dedupAdjAfter, hbp]
      obtain ⟨ih1, ih2, ih3, ih4, ih5⟩ := ih b hPrest
      rw [hfold]
      refine ⟨?_, ?_, ?_, ?_, ?_⟩
      · rw [List.nodup_cons]
        refine ⟨?_, ih1⟩
        intro hmem
        exact (ih3 b hmem).1 rfl
      · rw [List.pairwise_cons]
        exact ⟨fun x hx => (ih3 x hx).2, ih2⟩
      · intro x hx
        rcases List.mem_cons.mp hx with hx | hx
        · subst hx
          exact ⟨hbp, hpb⟩
        · obtain ⟨hxb, hbx⟩ := ih3 x hx
          refine ⟨?_, leStr_trans p b x hpb hbx⟩
          intro hxp
          subst hxp
          exact hxb (leStr_antisymm b x hbx hpb).symm
      · intro x hx
        rcases List.mem_cons.mp hx with hx | hx
        · exact hx ▸ List.mem_cons_self b rest
        · exact List.mem_cons_of_mem b (ih4 x hx)
      · intro x hx
        rcases List.mem_cons.mp hx with hx | hx
        · left
          exact hx ▸ List.mem_cons_self b (dedupAdjAfter b rest)
        · rcases ih5 x hx with hh | hh
          · left
            exact List.mem_cons_of_mem b hh
          · left
            exact hh ▸ List.mem_cons_self b (dedupAdjAfter b rest)

/-- Sorting then adjacent-deduplicating yields a `leStr`-sorted list with
no duplicates and exactly the members of the input. -/
theorem sort_dedup_props (l : List Str) :
    (dedupAdj (sortStr l)).Pairwise leP
    ∧ (dedupAdj (sortStr l)).Nodup
    ∧ (∀ x, x ∈ dedupAdj (sortStr l) ↔ x ∈ l) := by
  cases hs : sortStr l with
  | nil =>
    refine ⟨by simp [dedupAdj], by simp [dedupAdj], ?_⟩
    intro x
    rw [show dedupAdj [] = [] from rfl]
    have := mem_sortStr x l
    rw [hs] at this
    simpa using this.symm
  | cons a rest =>
    have hp : (a :: rest).Pairwise leP := by
      have := pairwise_sortStr l
      rwa [hs] at this
    obtain ⟨h1, h2, h3, h4, h5⟩ := dedupAdjAfter_props rest a hp
    have hfold : dedupAdj (a :: rest) = a :: dedupAdjAfter a rest := rfl
    refine ⟨?_, ?_, ?_⟩
    · rw [hfold, List.pairwise_cons]
      exact ⟨fun x hx => (h3 x hx).2, h2⟩
    · rw [hfold, List.nodup_cons]
      exact ⟨fun hmem => (h3 a hmem).1 rfl, h1⟩
    · intro x
      have hml := mem_sortStr x l
      rw [hs] at hml
      rw [hfold]
      constructor
      · intro hx
        rcases List.mem_cons.mp hx with hx | hx
        · exact hml.mp (hx ▸ List.mem_cons_self a rest)
        · exact hml.mp (List.mem_cons_of_mem a (h4 x hx))
      · intro hx
        rcases List.mem_cons.mp (hml.mpr hx) with hh | hh
        · exact hh ▸ List.mem_cons_self a (dedupAdjAfter a rest)
        · rcases h5 x hh with hh2 | hh2
          · exact List.mem_cons_of_mem a hh2
          · exact hh2 ▸ List.mem_cons_self a (dedupAdjAfter a rest)

theorem mem_find_file_paths (text : Str) (exts : List Str) (x : Str) :
    x ∈ find_file_paths_by_ext text exts
      ↔ ∃ w ∈ splitWhitespace text, trimQuotes w = x
          ∧ qualifiesPath exts x = true := by
  unfold find_file_paths_by_ext
  rw [List.mem_filterMap]
  constructor
  · rintro ⟨w, hw, hfw⟩
    dsimp only at hfw
    by_cases hq : qualifiesPath exts (trimQuotes w) = true
    · rw [if_pos hq] at hfw
      have hx : trimQuotes w = x := by simpa using hfw
      exact ⟨w, hw, hx, hx ▸ hq⟩
    · rw [if_neg hq] at hfw
      simp at hfw
  · rintro ⟨w, hw, hx, hq⟩
    refine ⟨w, hw, ?_⟩
    dsimp only
    rw [hx, if_pos hq]

theorem mem_collectImages (x : Str) :
    ∀ rs : List CommandResult,
      x ∈ collectImages rs
        ↔ ∃ r ∈ rs, x ∈ find_image_paths r.stdout ∨ x ∈ find_image_paths r.stderr
            ∨ x ∈ find_image_paths r.command := by
  intro rs
  induction rs with
  | nil => simp [collectImages]
  | cons r rest ih =>
    have hrw : collectImages (r :: rest)
        = find_image_paths r.stdout ++ find_image_paths r.stderr
          ++ find_image_paths r.command ++ collectImages rest := rfl
    constructor
    · intro h
      rw [hrw] at h
      rcases List.mem_append.mp h with h | h
      · rcases List.mem_append.mp h with h | h
        · rcases List.mem_append.mp h with h | h
          · exact ⟨r, List.mem_cons_self r rest, Or.inl h⟩
          · exact ⟨r, List.mem_cons_self r rest, Or.inr (Or.inl h)⟩
        · exact ⟨r, List.mem_cons_self r rest, Or.inr (Or.inr h)⟩
      · obtain ⟨r2, hr2, hp⟩ := ih.mp h
        exact ⟨r2, List.mem_cons_of_mem r hr2, hp⟩
    · rintro ⟨r2, hr2, hp⟩
      rw [hrw]
      rcases List.mem_cons.mp hr2 with hr2 | hr2
      · subst hr2
        rcases hp with h | h | h
        · exact List.mem_append.mpr (Or.inl (List.mem_append.mpr
            (Or.inl (List.mem_append.mpr (Or.inl h)))))
        · exact List.mem_append.mpr (Or.inl (List.mem_append.mpr
            (Or.inl (List.mem_append.mpr (Or.inr h)))))
        · exact List.mem_append.mpr (Or.inl (List.mem_append.mpr (Or.inr h)))
      · exact List.mem_append.mpr (Or.inr (ih.mpr ⟨r2, hr2, hp⟩))

theorem mem_collectVideos (x : Str) :
    ∀ rs : List CommandResult,
      x ∈ collectVideos rs
        ↔ ∃ r ∈ rs, x ∈ find_video_paths r.stdout ∨ x ∈ find_video_paths r.stderr
            ∨ x ∈ find_video_paths r.command := by
  intro rs
  induction rs with
  | nil => simp [collectVideos]
  | cons r rest ih =>
    have hrw : collectVideos (r :: rest)
        = find_video_paths r.stdout ++ find_video_paths r.stderr
          ++ find_video_paths r.command ++ collectVideos rest := rfl
    constructor
    · intro h
      rw [hrw] at h
      rcases List.mem_append.mp h with h | h
      · rcases List.mem_append.mp h with h | h
        · rcases List.mem_append.mp h with h | h
          · exact ⟨r, List.mem_cons_self r rest, Or.inl h⟩
          · exact ⟨r, List.mem_cons_self r rest, Or.inr (Or.inl h)⟩
        · exact ⟨r, List.mem_cons_self r rest, Or.inr (Or.inr h)⟩
      · obtain ⟨r2, hr2, hp⟩ := ih.mp h
        exact ⟨r2, List.mem_cons_of_mem r hr2, hp⟩
    · rintro ⟨r2, hr2, hp⟩
      rw [hrw]
      rcases List.mem_cons.mp hr2 with hr2 | hr2
      · subst hr2
        rcases hp with h | h | h
        · exact List.mem_append.mpr (Or.inl (List.mem_append.mpr
            (Or.inl (List.mem_append.mpr (Or.inl h)))))
        · exact List.mem_append.mpr (Or.inl (List.mem_append.mpr
            (Or.inl (List.mem_append.mpr (Or.inr h)))))
        · exact List.mem_append.mpr (Or.inl (List.mem_append.mpr (Or.inr h)))
      · exact List.mem_append.mpr (Or.inr (ih.mpr ⟨r2, hr2, hp⟩))

/-! ### Totality lemmas for the truncation helpers -/

theorem isCharBoundary_zero (s : Str) : isCharBoundary s 0 = true := by
  cases s <;> rfl

theorem boundaryDown_isBoundary (s : Str) :
    ∀ e : Nat, isCharBoundary s (boundaryDown s e) = true := by
  intro e
  induction e with
  | zero => simpa [boundaryDown] using isCharBoundary_zero s
  | succ e ih =>
    unfold boundaryDown
    by_cases h : isCharBoundary s (e + 1) = true
    · rw [if_pos h]
      exact h
    · rw [if_neg h]
      exact ih

theorem takeBytes_isSome_of_boundary :
    ∀ (s : Str) (n : Nat), isCharBoundary s n = true →
      (takeBytes s n).isSome = true := by
  intro s
  induction s with
  | nil =>
    intro n h
    cases n with
    | zero => rfl
    | succ n => simp [isCharBoundary] at h
  | cons c cs ih =>
    intro n h
    cases n with
    | zero => rfl
    | succ n =>
      unfold isCharBoundary at h
      by_cases hlt : n + 1 < utf8Len c
      · rw [if_pos hlt] at h
        simp at h
      · rw [if_neg hlt] at h
        unfold takeBytes
        rw [if_pos (by omega)]
        simpa using ih _ h

theorem truncate_total (s : Str) (max : Nat) : (truncate s max).isSome = true := by
  unfold truncate
  by_cases h : byteLen s ≤ max
  · rw [if_pos h]
    rfl
  · rw [if_neg h]
    simpa using takeBytes_isSome_of_boundary s (boundaryDown s max)
      (boundaryDown_isBoundary s max)

theorem tri_or_iff (exts : List Str) (t1 t2 t3 : Str) (p : Str) :
    (p ∈ find_file_paths_by_ext t1 exts ∨ p ∈ find_file_paths_by_ext t2 exts
      ∨ p ∈ find_file_paths_by_ext t3 exts)
    ↔ ∃ w, (w ∈ splitWhitespace t1 ∨ w ∈ splitWhitespace t2
            ∨ w ∈ splitWhitespace t3)
        ∧ trimQuotes w = p ∧ qualifiesPath exts p = true := by
  rw [mem_find_file_paths, mem_find_file_paths, mem_find_file_paths]
  constructor
  · rintro (⟨w, hw, h1, h2⟩ | ⟨w, hw, h1, h2⟩ | ⟨w, hw, h1, h2⟩)
    exacts [⟨w, Or.inl hw, h1, h2⟩, ⟨w, Or.inr (Or.inl hw), h1, h2⟩,
      ⟨w, Or.inr (Or.inr hw), h1, h2⟩]
  · rintro ⟨w, hw | hw | hw, h1, h2⟩
    exacts [Or.inl ⟨w, hw, h1, h2⟩, Or.inr (Or.inl ⟨w, hw, h1, h2⟩),
      Or.inr (Or.inr ⟨w, hw, h1, h2⟩)]

/-! ### Concrete instances used by witnesses and counterexamples -/

/-- The default configuration of `config.rs` (all serde defaults). -/
def cfgDefault : ExecutorConfig :=
  { working_dir := none, timeout_secs := 120, echo_result := true,
    activate_venv := none, max_fix_retries := 10 }

/-- The default configuration with repair disabled. -/
def cfgNoRetry : ExecutorConfig := { cfgDefault with max_fix_retries := 0 }

def taskA : TaskCommand := { command := "false".data, description := "fail step".data }

def taskB : TaskCommand := { command := "echo hi".data, description := "later step".data }

def c0 : Counters := { procCalls := 0, fixCalls := 0 }

/-- Environment whose every command completes unsuccessfully. -/
def envFail : Env :=
  { cfg := cfgNoRetry,
    proc := fun _ _ => .completed false (some 1) [] "boom".data,
    fix := fun _ => .error "no suggestion".data }

/-- Environment whose every command times out. -/
def envTimeout : Env :=
  { cfg := cfgDefault, proc := fun _ _ => .timedOut, fix := fun _ => .error [] }

/-- Environment whose every command fails to spawn. -/
def envSpawn : Env :=
  { cfg := cfgDefault, proc := fun _ _ => .spawnFailed "boom".data,
    fix := fun _ => .error [] }

/-- Environment whose advisory service answers with prose from which no
command can be extracted. -/
def envFixUnparsable : Env :=
  { cfg := cfgDefault, proc := fun _ _ => .timedOut,
    fix := fun _ => .ok "no commands here".data }

/-- The result `envFail` produces for `taskA`. -/
def resFailA : CommandResult :=
  { command := "false".data, success := false, exit_code := some 1,
    stdout := [], stderr := "boom".data }

/-- A failed result fed to the repair loop in the C4 witness. -/
def resFailX : CommandResult :=
  { command := "x".data, success := false, exit_code := none,
    stdout := [], stderr := [] }

/-- A suggestion whose fenced block is longer than two lines and whose
first line is a comment: its first non-comment non-empty line is
`mycmd a b`, yet the source extracts nothing from it. -/
def exC4 : Str := "```\n# c\nmycmd a b\nx\n```".data

/-- A result whose stdout token is wrapped in doubled quotes. -/
def exR7 : CommandResult :=
  { command := [], success := true, exit_code := some 0,
    stdout := "\"\"/t.png\"\"".data, stderr := [] }

/-- The artifact-scan example of the claim. -/
def exScan : CommandResult :=
  { command := [], success := true, exit_code := some 0,
    stdout := "saved to /tmp/out.PNG and ./x.mp4".data, stderr := [] }

/-- A configuration with an activation venv set. -/
def cfgVenv : ExecutorConfig :=
  { working_dir := none, timeout_secs := 120, echo_result := true,
    activate_venv := some ".venv".data, max_fix_retries := 10 }

/-! ### Claims -/

/-- C1: for every plan, repair budget and environment, plan execution
appends exactly one final ExecutionResult per processed Action in plan
order: the result list is never longer than the plan, it is already
produced (results and counters alike) by the plan truncated to the
processed prefix — so it is a prefix of the plan by index and later
Actions are neither executed nor given results — every result before
the last is a success, and a result list shorter than the plan ends in
a failed result (strict fail-fast).  This holds for the repairing
`run_commands_with_fix_retry` of bot.rs and for the plain
`Executor::run_commands` of executor.rs alike. -/
theorem C1_results_are_failfast_prefix_of_plan
    (env : Env) (plan : List TaskCommand) (c : Counters)
    (rs rs2 : List CommandResult) (c2 c4 : Counters)
    (h1 : run_commands_with_fix_retry env plan c = (rs, c2))
    (h2 : run_commands env plan c = (rs2, c4)) :
    (rs.length ≤ plan.length
      ∧ (∀ x ∈ rs.dropLast, x.success = true)
      ∧ (rs.length < plan.length → ∃ r, rs.getLast? = some r ∧ r.success = false)
      ∧ run_commands_with_fix_retry env (plan.take rs.length) c = (rs, c2))
    ∧ (rs2.length ≤ plan.length
      ∧ (∀ x ∈ rs2.dropLast, x.success = true)
      ∧ (rs2.length < plan.length → ∃ r, rs2.getLast? = some r ∧ r.success = false)
      ∧ run_commands env (plan.take rs2.length) c = (rs2, c4)) := by
  constructor
  · have h := rcwfr_spec env plan c
    rw [h1] at h
    simpa using h
  · have h := run_commands_spec env plan c
    rw [h2] at h
    simpa using h

theorem C1_results_are_failfast_prefix_of_plan_witness :
    ([resFailA].length ≤ [taskA, taskB].length)
    ∧ (∀ x ∈ [resFailA].dropLast, x.success = true)
    ∧ ([resFailA].length < [taskA, taskB].length →
        ∃ r, [resFailA].getLast? = some r ∧ r.success = false)
    ∧ run_commands_with_fix_retry envFail ([taskA, taskB].take [resFailA].length) c0
        = ([resFailA], { procCalls := 1, fixCalls := 0 }) :=
  (C1_results_are_failfast_prefix_of_plan envFail [taskA, taskB] c0
    [resFailA] [resFailA] { procCalls := 1, fixCalls := 0 }
    { procCalls := 1, fixCalls := 0 } rfl rfl).1

/-- C2: when the child process of an Action's run times out or fails to
spawn, the Action's recorded ExecutionResult has success = false and
exit_code = none, with stderr equal to — hence containing — the timeout
explanation resp. the run-failure error text, and the plan loop receives
this result as data (`processAction` is a total function; no fatal error
propagates to the caller). -/
theorem C2_timeout_and_spawn_become_failure_results
    (env : Env) (task : TaskCommand) (c : Counters) :
    (env.proc c.procCalls (shell_command_text env.cfg task.command)
        = ProcOutcome.timedOut →
      (processAction env task c).1
          = { command := task.command, success := false, exit_code := none,
              stdout := [], stderr := timeoutErrText env.cfg task.command }
        ∧ containsSub "命令超时".data (processAction env task c).1.stderr = true)
    ∧ (∀ m, env.proc c.procCalls (shell_command_text env.cfg task.command)
          = ProcOutcome.spawnFailed m →
      (processAction env task c).1
          = { command := task.command, success := false, exit_code := none,
              stdout := [], stderr := runFailErrText task.command }
        ∧ containsSub "命令执行失败".data (processAction env task c).1.stderr = true) := by
  constructor
  · intro h
    have heq := processAction_timedOut env task c h
    refine ⟨heq, ?_⟩
    rw [heq]
    exact containsSub_of_startsWith _ _ (startsWith_timeoutErrText env.cfg task.command)
  · intro m h
    have heq := processAction_spawnFailed env task c m h
    refine ⟨heq, ?_⟩
    rw [heq]
    exact containsSub_of_startsWith _ _ (startsWith_runFailErrText task.command)

theorem C2_timeout_and_spawn_become_failure_results_witness :
    (processAction envTimeout taskA c0).1
        = { command := taskA.command, success := false, exit_code := none,
            stdout := [], stderr := timeoutErrText cfgDefault taskA.command }
    ∧ (processAction envSpawn taskA c0).1
        = { command := taskA.command, success := false, exit_code := none,
            stdout := [], stderr := runFailErrText taskA.command } :=
  ⟨((C2_timeout_and_spawn_become_failure_results envTimeout taskA c0).1 rfl).1,
   ((C2_timeout_and_spawn_become_failure_results envSpawn taskA c0).2
      "boom".data rfl).1⟩

/-- C3: during plan execution with repair budget `max_fix_retries = N`,
an Action whose every execution attempt fails causes at most N advisory
fix requests (counted by the fix-call counter around the processing of
one Action; the bound holds for every environment). -/
theorem C3_fix_requests_bounded_by_budget
    (env : Env) (task : TaskCommand) (c : Counters)
    (_hfail : ∀ n cmd, procFails (env.proc n cmd)) :
    (processAction env task c).2.fixCalls
      ≤ c.fixCalls + env.cfg.max_fix_retries :=
  processAction_fixCalls env task c

theorem C3_fix_requests_bounded_by_budget_witness :
    (processAction envTimeout taskA c0).2.fixCalls
      ≤ c0.fixCalls + envTimeout.cfg.max_fix_retries :=
  C3_fix_requests_bounded_by_budget envTimeout taskA c0 (fun _ _ => trivial)

/-- C4 counterexample: on a fenced block of more than two lines whose
first line is a comment, the claimed rule (i) — "first non-comment,
non-empty line of a fenced code block" — selects `mycmd a b`, but the
source's extraction returns nothing for this suggestion (it only
inspects the literal first line of such a block). -/
theorem C4_counterexample_first_noncomment_line_not_used :
    spec_fenced_first_line exC4 = some "mycmd a b".data
    ∧ extract_command_from_suggestion exC4 = none := by
  constructor
  · decide
  · decide

/-- C4 (amended): extraction applies a strict fixed rule priority to the
trimmed suggestion — (i) the fenced-block rule: the block's FIRST line
when it is non-empty and not a comment, otherwise, only for a block of
at most 2 lines, its first non-empty non-comment line; (ii) otherwise
only the FIRST backtick-delimited span, returned when it contains a
space or starts with "/" or "echo"; (iii) otherwise the first line with
a known interpreter/path prefix.  A later rule applies only when every
earlier rule finds nothing; when no rule matches, extraction yields
nothing and the repair loop stops for the Action keeping the last
failure (with the one advisory request of that iteration counted). -/
theorem C4_amended_extraction_rule_priority :
    (∀ s : Str, extract_command_from_suggestion s
        = (if trim s = [] then none
           else ((fencedRule (trim s)).orElse fun _ =>
                  (backtickRule (trim s)).orElse fun _ => bareLineRule (trim s))))
    ∧ (∀ (env : Env) (b : Nat) (r : CommandResult) (c : Counters) (sug : Str),
        r.success = false →
        env.fix c.fixCalls = Except.ok sug →
        extract_command_from_suggestion (trim sug) = none →
        repairLoop env (b + 1) r c
          = (r, { c with fixCalls := c.fixCalls + 1 })) := by
  constructor
  · exact extract_eq_rules
  · intro env b r c sug hr hfix hext
    unfold repairLoop
    rw [if_neg (by simp [hr]), hfix]
    dsimp only
    rw [hext]

theorem C4_amended_extraction_rule_priority_witness :
    repairLoop envFixUnparsable 1 resFailX c0
      = (resFailX, { procCalls := 0, fixCalls := 1 }) :=
  C4_amended_extraction_rule_priority.2 envFixUnparsable 0 resFailX c0
    "no commands here".data rfl rfl (by decide)

/-- C5: a command of the exact shape `ppt-generator "<title>" "<content>"`
(two double-quoted arguments) is recognized and parses to the pair of
the quoted texts; backslash-escaped quotes are supported inside an
argument (kept verbatim); a command with fewer than two quoted segments
is not recognized, and the bypass gate of `process_message` is taken
exactly for the recognized shape, so a one-argument command falls
through to ordinary plan execution. -/
theorem C5_ppt_generator_two_quoted_arguments :
    (∀ t c : Str, quoteFree t = true → quoteFree c = true →
        parse_ppt_generator_args (pptCmd2 t c) = some (t, c))
    ∧ (∀ t : Str, quoteFree t = true →
        parse_ppt_generator_args (pptCmd1 t) = none)
    ∧ parse_ppt_generator_args "ppt-generator \"a\\\"b\" \"c\"".data
        = some ("a\\\"b".data, "c".data)
    ∧ pptBypassTaken [{ command := pptCmd2 "T".data "C".data, description := [] }] = true
    ∧ pptBypassTaken [{ command := pptCmd1 "T".data, description := [] }] = false := by
  refine ⟨parse_pptCmd2, parse_pptCmd1, by decide, by decide, by decide⟩

theorem C5_ppt_generator_two_quoted_arguments_witness :
    parse_ppt_generator_args (pptCmd2 "T".data "C".data)
      = some ("T".data, "C".data) :=
  C5_ppt_generator_two_quoted_arguments.1 "T".data "C".data (by decide) (by decide)

/-- C6: the doc comment on `ExecutorConfig::activate_venv` (and spec
§4.1) promises that a configured activation venv prefixes every command
with `source <env>/bin/activate && `; the executor actually passes the
command to `sh -c` verbatim for every configuration — `activate_venv`
is read by no code path, contradicting the code's own documentation. -/
theorem C6_activate_venv_never_applied :
    shell_command_text cfgVenv "python x.py".data = "python x.py".data
    ∧ shell_command_text cfgVenv "python x.py".data
        ≠ shell_command_text_spec cfgVenv "python x.py".data
    ∧ (∀ (cfg : ExecutorConfig) (cmd : Str), shell_command_text cfg cmd = cmd) :=
  ⟨rfl, by decide, fun _ _ => rfl⟩

/-- C7 counterexample: the claim trims only a single leading/trailing
quote character per token; the source trims ALL of them.  On the token
`""/t.png""` the source reports the image `/t.png`, while the claimed
single-trim rule leaves `"/t.png"`, which starts with a quote and so
qualifies under no category — the two scans disagree. -/
theorem C7_counterexample_single_quote_trim :
    find_images_in_results [exR7] = ["/t.png".data]
    ∧ spec_images_single_trim [exR7] = [] := by
  constructor
  · decide
  · decide

/-- C7 (amended): each category output equals the lexicographically
sorted, deduplicated list of the quote-trimmed whitespace-separated
tokens — ALL leading and trailing quote characters removed — drawn from
every result's stdout, stderr and command text, kept when the trimmed
path starts with "/" or "./" and its lowercase form ends with an
extension of the category, with the path's casing preserved; and the
claim's concrete example scans as stated. -/
theorem C7_amended_artifact_scan_sorted_dedup :
    (∀ results : List CommandResult,
      (find_images_in_results results).Pairwise leP
      ∧ (find_images_in_results results).Nodup
      ∧ (∀ p, p ∈ find_images_in_results results
          ↔ ∃ r ∈ results, ∃ w,
              (w ∈ splitWhitespace r.stdout ∨ w ∈ splitWhitespace r.stderr
                ∨ w ∈ splitWhitespace r.command)
              ∧ trimQuotes w = p ∧ qualifiesPath IMAGE_EXTENSIONS p = true))
    ∧ (∀ results : List CommandResult,
      (find_videos_in_results results).Pairwise leP
      ∧ (find_videos_in_results results).Nodup
      ∧ (∀ p, p ∈ find_videos_in_results results
          ↔ ∃ r ∈ results, ∃ w,
              (w ∈ splitWhitespace r.stdout ∨ w ∈ splitWhitespace r.stderr
                ∨ w ∈ splitWhitespace r.command)
              ∧ trimQuotes w = p ∧ qualifiesPath VIDEO_EXTENSIONS p = true))
    ∧ find_images_in_results [exScan] = ["/tmp/out.PNG".data]
    ∧ find_videos_in_results [exScan] = ["./x.mp4".data] := by
  refine ⟨?_, ?_, by decide, by decide⟩
  · intro results
    obtain ⟨hs, hn, hm⟩ := sort_dedup_props (collectImages results)
    refine ⟨hs, hn, ?_⟩
    intro p
    rw [show find_images_in_results results
        = dedupAdj (sortStr (collectImages results)) from rfl]
    rw [hm p, mem_collectImages]
    constructor
    · rintro ⟨r, hr, h⟩
      exact ⟨r, hr, (tri_or_iff IMAGE_EXTENSIONS r.stdout r.stderr r.command p).mp h⟩
    · rintro ⟨r, hr, h⟩
      exact ⟨r, hr, (tri_or_iff IMAGE_EXTENSIONS r.stdout r.stderr r.command p).mpr h⟩
  · intro results
    obtain ⟨hs, hn, hm⟩ := sort_dedup_props (collectVideos results)
    refine ⟨hs, hn, ?_⟩
    intro p
    rw [show find_videos_in_results results
        = dedupAdj (sortStr (collectVideos results)) from rfl]
    rw [hm p, mem_collectVideos]
    constructor
    · rintro ⟨r, hr, h⟩
      exact ⟨r, hr, (tri_or_iff VIDEO_EXTENSIONS r.stdout r.stderr r.command p).mp h⟩
    · rintro ⟨r, hr, h⟩
      exact ⟨r, hr, (tri_or_iff VIDEO_EXTENSIONS r.stdout r.stderr r.command p).mpr h⟩

theorem C7_amended_artifact_scan_sorted_dedup_witness :
    (find_images_in_results [exScan]).Pairwise leP
    ∧ (find_images_in_results [exScan]).Nodup :=
  ⟨(C7_amended_artifact_scan_sorted_dedup.1 [exScan]).1,
   (C7_amended_artifact_scan_sorted_dedup.1 [exScan]).2.1⟩

/-- C8: device-index resolution and rewrite — the probe line
`[0] Capture screen 0` resolves index 0; rewriting a record command with
`-i "1:0"` and index 0 yields `-i "0:0"` with every other character
unchanged; and when no line of the probe stdout contains the marker
`Capture screen`, resolution yields nothing, in which case
`process_message` leaves the record command unmodified. -/
theorem C8_device_index_resolution_and_rewrite :
    parse_avfoundation_screen_index "[0] Capture screen 0".data = some 0
    ∧ replace_avfoundation_device_index
        "ffmpeg -f avfoundation -i \"1:0\" -t 10 /tmp/screen_record.mp4".data 0
        = "ffmpeg -f avfoundation -i \"0:0\" -t 10 /tmp/screen_record.mp4".data
    ∧ (∀ stdout : Str,
        (∀ l ∈ lines stdout, containsSub "Capture screen".data l = false) →
        parse_avfoundation_screen_index stdout = none) := by
  refine ⟨by decide, by decide, ?_⟩
  intro stdout h
  unfold parse_avfoundation_screen_index
  rw [List.findSome?_eq_none_iff]
  intro l hl
  simp [h l hl]

theorem C8_device_index_resolution_and_rewrite_witness :
    parse_avfoundation_screen_index "no capture devices found".data = none :=
  C8_device_index_resolution_and_rewrite.2.2
    "no capture devices found".data (by decide)

/-- C9: the bot-side truncation helper is total — for every string and
byte limit it walks back to a character boundary and returns a truncated
string — but the executor-side `truncate_str` slices at the raw byte
limit: on multi-byte UTF-8 text whose limit falls inside a character it
panics (modelled as `none`), e.g. on the single three-byte character
`中` with limit 1, so the hosting process can be terminated by a panic
inside output logging. -/
theorem C9_truncation_totality_and_truncate_str_panic :
    (∀ (s : Str) (max : Nat), (truncate s max).isSome = true)
    ∧ truncate_str "中".data 1 = none :=
  ⟨truncate_total, by decide⟩

/-- C10: whenever repair-suggestion extraction succeeds, the returned
command line is non-empty and carries no leading or trailing whitespace
(every return site of the source yields a trimmed, non-emptiness-checked
string), so the repair loop never re-executes an empty fix command. -/
theorem C10_extracted_command_nonempty_trimmed
    (s cmd : Str) (h : extract_command_from_suggestion s = some cmd) :
    cmd ≠ [] ∧ trim cmd = cmd := by
  rw [extract_eq_rules] at h
  by_cases hz : trim s = []
  · rw [if_pos hz] at h
    simp at h
  · rw [if_neg hz] at h
    cases hf : fencedRule (trim s) with
    | some r =>
      rw [hf] at h
      have h2 : (some r : Option Str) = some cmd := h
      have hr : cmd = r := (Option.some.inj h2).symm
      subst hr
      exact fencedRule_some _ _ hf
    | none =>
      rw [hf] at h
      have h2 : ((backtickRule (trim s)).orElse
          fun _ => bareLineRule (trim s)) = some cmd := h
      cases hb : backtickRule (trim s) with
      | some r =>
        rw [hb] at h2
        have h3 : (some r : Option Str) = some cmd := h2
        have hr : cmd = r := (Option.some.inj h3).symm
        subst hr
        exact backtickRule_some _ _ hb
      | none =>
        rw [hb] at h2
        have h3 : bareLineRule (trim s) = some cmd := h2
        exact bareLineRule_some _ _ h3

theorem C10_extracted_command_nonempty_trimmed_witness :
    ("pip install x".data ≠ ([] : Str))
    ∧ trim "pip install x".data = "pip install x".data :=
  C10_extracted_command_nonempty_trimmed
    "run `pip install x` now".data "pip install x".data (by decide)

end OpenClaw
